import Mathlib

/-!
# mazec, `server/levels/level_01.c`

A verification development for the reference level plug-in of the maze server.
The C translation unit defines six static functions and the table
`level_ops`.  The functions are embedded as Lean functions over an explicit
machine state `World` (heap of live blocks plus the log sink); an out-parameter
`T *p` becomes a pair "slot content before the call / slot content after it",
the slot being a valid object of the caller that overlaps no heap block.
-/

namespace Level01

/-! ## Machine state -/

/-- A C data pointer.  `0` plays the role of `NULL`. -/
abbrev Ptr := Nat

/-- A C `char`: one byte. -/
abbrev CChar := Fin 256

/-- One byte of heap storage; `none` is an indeterminate (never written) byte. -/
abbrev Byte := Option (Fin 256)

/-- Severity of a log record.  Only `log_info` is called by this level. -/
inductive LogLevel where
  | info
  | other
  deriving DecidableEq, Repr

/-- One record of the log sink. -/
structure LogRecord where
  level : LogLevel
  text : String
  deriving DecidableEq, Repr

/-- Ways in which a call into the C runtime can abort. -/
inductive Fault where
  | out_of_memory
  | bad_free
  deriving DecidableEq, Repr

/-- Everything a level function could read or write besides its own
arguments: the live heap blocks (address and content), the allocation
frontier, the number of bytes the allocator can still hand out, and the
records written to the log sink so far (oldest first). -/
structure World where
  heap : List (Nat × List Byte)
  brk : Nat
  avail : Nat
  log : List LogRecord
  deriving DecidableEq, Repr

/-- Addresses of the live blocks. -/
def World.live (w : World) : List Nat := w.heap.map Prod.fst

/-- Content of the live block at `p`, if there is one. -/
def World.block (w : World) (p : Ptr) : Option (List Byte) :=
  (w.heap.find? (fun b => b.1 == p)).map Prod.snd

/-- Heap discipline: `NULL` is never handed out, every live block lies below
the allocation frontier, and no address is live twice. -/
def World.wf (w : World) : Prop :=
  0 < w.brk ∧ (∀ p ∈ w.live, 0 < p ∧ p < w.brk) ∧ w.live.Nodup

instance (w : World) : Decidable w.wf := by
  unfold World.wf; infer_instance

/-- The world at process start: nothing allocated, nothing logged. -/
def World.boot (avail : Nat) : World :=
  { heap := [], brk := 1, avail := avail, log := [] }

/-! ## Runtime helpers declared in `common.h` and `log.h` -/

/-- Modelled from the spec: `salloc` (declared in `common.h`, body not in the
source tree).  "Allocates and returns fresh per-session state ... allocation
failure is a fatal/unrecoverable condition": a fresh block of `n` indeterminate
bytes at the allocation frontier, or the fault `out_of_memory`. -/
def salloc (n : Nat) (w : World) : Except Fault (Ptr × World) :=
  if n ≤ w.avail then
    .ok (w.brk,
      { w with heap := (w.brk, List.replicate n none) :: w.heap,
               brk := w.brk + max n 1,
               avail := w.avail - n })
  else
    .error .out_of_memory

/-- Remove the first block at address `p` from a block list. -/
def release (p : Ptr) : List (Nat × List Byte) → List (Nat × List Byte)
  | [] => []
  | b :: bs => if b.1 = p then bs else b :: release p bs

/-- Modelled from the spec: `sfree` (declared in `common.h`, body not in the
source tree).  "Releases all resources owned by state"; releasing something
that is not live "is undefined and must never occur", which is the fault
`bad_free` here. -/
def sfree (p : Ptr) (w : World) : Except Fault World :=
  match w.block p with
  | some bytes =>
    .ok { w with heap := release p w.heap, avail := w.avail + bytes.length }
  | none => .error .bad_free

/-- Modelled from the spec: `log_info` (declared in `log.h`, body not in the
source tree).  "Emitting a diagnostic record" through the logging collaborator:
one informational record is appended to the sink. -/
def log_info (text : String) (w : World) : World :=
  { w with log := w.log ++ [{ level := .info, text := text }] }

/-! ## The translation unit `level_01.c` -/

/-- `#define CODE "test"` -/
def CODE : String := "test"

/-- `static void *get_data(void) { return salloc(1); }` -/
def get_data (w : World) : Except Fault (Ptr × World) :=
  salloc 1 w

/-- `static void free_data(void *data) { sfree(data); log_info("ok, freeing"); }` -/
def free_data (data : Ptr) (w : World) : Except Fault World := do
  let w1 ← sfree data w
  pure (log_info "ok, freeing" w1)

/-- What a call of `move` leaves behind: the returned `char *` (`none` is
`NULL`), the content of the slot `*win`, and the world. -/
structure MoveRet where
  ret : Option String
  win : Bool
  world : World
  deriving DecidableEq, Repr

/-- What a call of `what` or `get` leaves behind: the returned `char *`
(`none` is `NULL`), the content of the slot `*res`, and the world. -/
structure IntRet where
  ret : Option String
  res : Int
  world : World
  deriving DecidableEq, Repr

/-- `static char *move(void *data, char c, bool *win)`:
`*win = false; return "Zdi vsude okolo.";`.
The argument `win` is the content of the slot before the call. -/
def move (_data : Ptr) (_c : CChar) (_win : Bool) (w : World) : MoveRet :=
  { ret := some "Zdi vsude okolo.", win := false, world := w }

/-- `static char *what(void *data, int x, int y, int *res)`:
`*res = 0; return NULL;`.
The argument `res` is the content of the slot before the call. -/
def what (_data : Ptr) (_x _y : Int) (_res : Int) (w : World) : IntRet :=
  { ret := none, res := 0, world := w }

/-- `static char *get(void *data, int *res)`: `*res = 0; return NULL;`.
The argument `res` is the content of the slot before the call. -/
def get (_data : Ptr) (_res : Int) (w : World) : IntRet :=
  { ret := none, res := 0, world := w }

/-- The table type `struct level_ops` (declared in `level.h`); the fields are
the ones the initialiser in `level_01.c` names. -/
structure struct_level_ops where
  max_conn : Nat
  max_time : Nat
  get_data : World → Except Fault (Ptr × World)
  free_data : Ptr → World → Except Fault World
  move : Ptr → CChar → Bool → World → MoveRet
  what : Ptr → Int → Int → Int → World → IntRet
  get_x : Ptr → Int → World → IntRet
  get_y : Ptr → Int → World → IntRet
  get_w : Ptr → Int → World → IntRet
  get_h : Ptr → Int → World → IntRet

/-- `const struct level_ops level_ops = { ... };` -/
def level_ops : struct_level_ops :=
  { max_conn := 2,
    max_time := 10,
    get_data := get_data,
    free_data := free_data,
    move := move,
    what := what,
    get_x := get,
    get_y := get,
    get_w := get,
    get_h := get }

/-! ## The host side of the contract -/

/-- Modelled from the spec: the reading of a descriptor limit (the host code
that interprets `max_conn` and `max_time` is not in the source tree).
"`max_connections` (non-negative integer, 0 = unlimited), `max_duration`
(seconds, 0 = unlimited)": `none` is unlimited. -/
def limit_of (n : Nat) : Option Nat :=
  if n = 0 then none else some n

/-- Modelled from the spec: `QueryResult` (the host glue that reads the pair
"returned `char *`, slot `*res`" is not in the source tree).  "Either a success
value (integer) or a failure message string; mutually exclusive." -/
inductive QueryResult where
  | value (v : Int)
  | failure (message : String)
  deriving DecidableEq, Repr

/-- Modelled from the spec: how the host reads a query call (not in the source
tree): a `NULL` return is the success value left in `*res`, a non-`NULL`
return is the failure message. -/
def QueryResult.of_call (r : IntRet) : QueryResult :=
  match r.ret with
  | none => .value r.res
  | some m => .failure m

/-- Modelled from the spec: the session states of the SessionHost (host code
is not in the source tree).  "States: `Uncreated -> Active -> {Won, TimedOut,
Disconnected, LimitExceeded}` (all four terminal)." -/
inductive SessionState where
  | Uncreated
  | Active
  | Won
  | TimedOut
  | Disconnected
  | LimitExceeded
  deriving DecidableEq, Repr

/-- Modelled from the spec: the host transition taken when a `move` call
returns (host code is not in the source tree).  "`Active -> Active`: on `move`
returning `won=false`.  `Active -> Won`: on `move` returning `won=true`." -/
def SessionState.after_move (s : SessionState) (won : Bool) : SessionState :=
  match s with
  | .Active => if won then .Won else .Active
  | other => other

/-- One observation of a driven session: the `won` flag and the world left by
the latest `move`, and the session state the host is in afterwards. -/
structure Observation where
  won : Bool
  world : World
  state : SessionState
  deriving DecidableEq, Repr

/-- Modelled from the spec: the host loop feeding input characters one by one
to the `move` of a level table (host code is not in the source tree).  A move
is issued only while the session is `Active` ("after `move` returns `won=true`,
no further `move` call is issued"); the list holds one observation per issued
move. -/
def drive (ops : struct_level_ops) (data : Ptr) :
    List CChar → Bool → World → SessionState → List Observation
  | [], _, _, _ => []
  | c :: cs, win, w, st =>
    match st with
    | .Active =>
      let r := ops.move data c win w
      let st1 := st.after_move r.win
      { won := r.win, world := r.world, state := st1 } ::
        drive ops data cs r.win r.world st1
    | _ => []

/-! ## Admission control of the host -/

/-- A session as the host books it: its state, and whether a level state
created for it is still waiting for its `destroy`. -/
structure Session where
  state : SessionState
  bound : Bool
  deriving DecidableEq, Repr

/-- Modelled from the spec: the host bookkeeping for one level code (host code
is not in the source tree): the sessions in order of arrival and "an aggregate
per-`code` active-session counter". -/
structure Host where
  sessions : List Session
  counter : Nat
  deriving DecidableEq, Repr

/-- The host at process start. -/
def Host.boot : Host := { sessions := [], counter := 0 }

/-- Modelled from the spec: the atomic steps whose interleaving makes up a run
of the host (host code is not in the source tree).  Clients act concurrently;
each step below is one synchronized action of the host on behalf of session
`i`. -/
inductive HostEvent where
  | connect
  | create (i : Nat) (allocated : Bool)
  | moved (i : Nat) (won : Bool)
  | clock (i : Nat) (elapsed : Nat)
  | disconnect (i : Nat)
  | destroy (i : Nat)
  deriving DecidableEq, Repr

/-- Modelled from the spec: the admission test (host code is not in the source
tree).  "Only if the session count for that `code` is below `max_connections`
(or unlimited)", with "0 = unlimited". -/
def admits (max_connections count : Nat) : Bool :=
  match limit_of max_connections with
  | none => true
  | some n => decide (count < n)

/-- Modelled from the spec: the timeout test (host code is not in the source
tree).  "Elapsed session time ≥ `max_duration` (if bounded)". -/
def expired (max_duration elapsed : Nat) : Bool :=
  match limit_of max_duration with
  | none => false
  | some d => decide (d ≤ elapsed)

/-- States in which the level state is due for its single `destroy`. -/
def SessionState.finished : SessionState → Bool
  | .Won => true
  | .TimedOut => true
  | .Disconnected => true
  | _ => false

/-- Modelled from the spec: one atomic host step (host code is not in the
source tree), for a level with the given limits.
* `connect`: a client arrives; its session starts `Uncreated`.
* `create`: compare the counter with the limit and, in the same synchronized
  action, create the level state and increment the counter; a refused session
  becomes `LimitExceeded` and owns nothing; an allocation failure denies the
  session, which may retry.
* `moved`: a `move` returned with the given `won` flag.
* `clock`: the host observes the elapsed session time.
* `disconnect`: the transport dropped.
* `destroy`: the single teardown of a finished session; the counter is
  decremented. -/
def Host.step (max_connections max_duration : Nat) (h : Host) : HostEvent → Host
  | .connect =>
    { h with sessions := h.sessions ++ [{ state := .Uncreated, bound := false }] }
  | .create i allocated =>
    match h.sessions[i]? with
    | some s =>
      if s.state = .Uncreated then
        if admits max_connections h.counter then
          if allocated then
            { sessions := h.sessions.set i { state := .Active, bound := true },
              counter := h.counter + 1 }
          else h
        else
          { h with sessions := h.sessions.set i { state := .LimitExceeded, bound := false } }
      else h
    | none => h
  | .moved i won =>
    match h.sessions[i]? with
    | some s => { h with sessions := h.sessions.set i { s with state := s.state.after_move won } }
    | none => h
  | .clock i elapsed =>
    match h.sessions[i]? with
    | some s =>
      if s.state = .Active ∧ expired max_duration elapsed = true then
        { h with sessions := h.sessions.set i { s with state := .TimedOut } }
      else h
    | none => h
  | .disconnect i =>
    match h.sessions[i]? with
    | some s =>
      if s.state = .Active then
        { h with sessions := h.sessions.set i { s with state := .Disconnected } }
      else h
    | none => h
  | .destroy i =>
    match h.sessions[i]? with
    | some s =>
      if s.state.finished = true ∧ s.bound = true then
        { sessions := h.sessions.set i { s with bound := false },
          counter := h.counter - 1 }
      else h
    | none => h

/-- A run of the host: the events of all clients in the order in which their
synchronized steps take effect. -/
def Host.run (max_connections max_duration : Nat) (h : Host) (es : List HostEvent) : Host :=
  es.foldl (Host.step max_connections max_duration) h

/-- Number of sessions that are `Active` at the same time. -/
def Host.active (h : Host) : Nat :=
  h.sessions.countP (fun s => decide (s.state = .Active))

/-- Number of level states created and not yet destroyed. -/
def Host.owned (h : Host) : Nat :=
  h.sessions.countP (fun s => s.bound)

/-! ## Predicates and sample states used in the statements -/

/-- A query call that succeeded with the value 0: the result slot holds 0, the
returned pointer is `NULL`, and read as a `QueryResult` the call is the success
value 0 and not a failure. -/
def zero_success (r : IntRet) : Prop :=
  r.res = 0 ∧ r.ret = none ∧ QueryResult.of_call r = QueryResult.value 0 ∧
    ¬ ∃ m, QueryResult.of_call r = QueryResult.failure m

/-- Two worlds that hold the same state block at address 1 and differ in the
rest of the heap and in the log sink. -/
def move_deterministic_worlds : World × World :=
  ({ heap := [(1, [some 7])], brk := 2, avail := 5, log := [] },
   { heap := [(4, [none, none]), (1, [some 7])], brk := 6, avail := 0,
     log := [{ level := .info, text := "ok, freeing" }] })

/-- Bookkeeping of one session: an `Active` session owns a level state, an
`Uncreated` one does not. -/
def Session.good (s : Session) : Prop :=
  (s.state = .Active → s.bound = true) ∧ (s.state = .Uncreated → s.bound = false)

/-- Bookkeeping of the host for a level with limit `N`: the counter is the
number of owned level states, every session is booked consistently, and a
bounded limit bounds the counter. -/
def Host.inv (N : Nat) (h : Host) : Prop :=
  h.owned = h.counter ∧ (∀ s ∈ h.sessions, s.good) ∧
    (∀ n, limit_of N = some n → h.counter ≤ n)

/-! ## Properties of the level functions -/

/-- C1: for every level state (pointer and world), every input character and
every previous content of the `won` slot, `move` as installed in `level_ops`
leaves `won = false` and returns a non-`NULL`, non-empty message; the same
holds in particular for the input character `x` (byte 120). -/
theorem move_not_won_nonempty (data : Ptr) (c : CChar) (win : Bool) (w : World) :
    (level_ops.move data c win w).win = false ∧
    (∃ m, (level_ops.move data c win w).ret = some m ∧ m ≠ "" ∧ 0 < m.length) ∧
    (level_ops.move data 120 win w).win = false ∧
    (level_ops.move data 120 win w).ret ≠ none ∧
    (level_ops.move data 120 win w).ret ≠ some "" := by
  refine ⟨rfl, ⟨"Zdi vsude okolo.", rfl, by decide, by decide⟩, rfl, ?_, ?_⟩
  · simp [level_ops, move]
  · simp [level_ops, move]

/-- C2: for every level state and every previous content of the result slot,
each of `get_x`, `get_y`, `get_w`, `get_h` of `level_ops` sets the result to 0
and returns `NULL`; read as a `QueryResult` the call is the success value 0,
never a failure. -/
theorem queries_return_zero (data : Ptr) (res : Int) (w : World) :
    zero_success (level_ops.get_x data res w) ∧
    zero_success (level_ops.get_y data res w) ∧
    zero_success (level_ops.get_w data res w) ∧
    zero_success (level_ops.get_h data res w) := by
  have key : zero_success (get data res w) := by
    refine ⟨rfl, rfl, rfl, ?_⟩
    rintro ⟨m, hm⟩
    simp [QueryResult.of_call, get] at hm
  exact ⟨key, key, key, key⟩

/-- C3: queries never mutate state: after any of `get_x`, `get_y`, `get_w`,
`get_h` the world (heap blocks with their content, allocator, log) is the world
before the call, and so is the content of the block `data` points to. -/
theorem queries_leave_state (data : Ptr) (res : Int) (w : World) :
    ((level_ops.get_x data res w).world = w ∧
      (level_ops.get_x data res w).world.block data = w.block data) ∧
    ((level_ops.get_y data res w).world = w ∧
      (level_ops.get_y data res w).world.block data = w.block data) ∧
    ((level_ops.get_w data res w).world = w ∧
      (level_ops.get_w data res w).world.block data = w.block data) ∧
    ((level_ops.get_h data res w).world = w ∧
      (level_ops.get_h data res w).world.block data = w.block data) :=
  ⟨⟨rfl, rfl⟩, ⟨rfl, rfl⟩, ⟨rfl, rfl⟩, ⟨rfl, rfl⟩⟩

/-- C4: `move` is deterministic and reads or writes nothing but its state
argument and its `won` output: two calls with the same pointer and input
character, in worlds that agree on the block `data` points to (and may differ
in everything else, as may the previous content of the `won` slot), return the
same message and the same `won` flag and leave the same state block; each call
leaves its whole world as it found it. -/
theorem move_deterministic (data : Ptr) (c : CChar) (win1 win2 : Bool) (w1 w2 : World)
    (h : w1.block data = w2.block data) :
    (move data c win1 w1).ret = (move data c win2 w2).ret ∧
    (move data c win1 w1).win = (move data c win2 w2).win ∧
    (move data c win1 w1).world.block data = (move data c win2 w2).world.block data ∧
    (move data c win1 w1).world = w1 ∧
    (move data c win2 w2).world = w2 ∧
    move data c win1 w1 = move data c win2 w1 := by
  exact ⟨rfl, rfl, h, rfl, rfl, rfl⟩

/-- Instance of `move_deterministic` at the two worlds above. -/
theorem move_deterministic_witness :
    move_deterministic_worlds.1.block 1 = move_deterministic_worlds.2.block 1 ∧
    move_deterministic_worlds.1 ≠ move_deterministic_worlds.2 ∧
    (move 1 120 true move_deterministic_worlds.1).ret =
      (move 1 120 false move_deterministic_worlds.2).ret ∧
    (move 1 120 true move_deterministic_worlds.1).win =
      (move 1 120 false move_deterministic_worlds.2).win :=
  ⟨by decide, by decide,
    (move_deterministic 1 120 true false move_deterministic_worlds.1
      move_deterministic_worlds.2 (by decide)).1,
    (move_deterministic 1 120 true false move_deterministic_worlds.1
      move_deterministic_worlds.2 (by decide)).2.1⟩

/-- C5: the descriptor of the reference level: code `test`, `max_conn = 2`,
`max_time = 10`; both limits are non-zero, so read as limits they are the
bounds 2 and 10 and not "unlimited". -/
theorem descriptor_reference :
    CODE = "test" ∧ level_ops.max_conn = 2 ∧ level_ops.max_time = 10 ∧
    level_ops.max_conn ≠ 0 ∧ level_ops.max_time ≠ 0 ∧
    limit_of level_ops.max_conn = some 2 ∧ limit_of level_ops.max_time = some 10 := by
  refine ⟨rfl, rfl, rfl, ?_, ?_, ?_, ?_⟩ <;> decide

/-- The observations of a session driven through `level_ops`: every input is
consumed and answered with `won = false`, the initial world and `Active`. -/
theorem drive_level_ops (data : Ptr) (w : World) :
    ∀ (cs : List CChar) (win : Bool),
      drive level_ops data cs win w .Active =
        List.replicate cs.length { won := false, world := w, state := .Active } := by
  intro cs
  induction cs with
  | nil => intro win; rfl
  | cons c cs ih =>
    intro win
    have hstep : drive level_ops data (c :: cs) win w .Active =
        { won := false, world := w, state := .Active } ::
          drive level_ops data cs false w .Active := rfl
    rw [hstep, ih false]
    rfl

/-- C8: the reference level can never be won and its state never changes: for
every initial state (pointer, world, slot content) and every finite sequence of
input characters fed one by one to `move` by the host loop, every input is
consumed (the session is still `Active` when the next one arrives), and after
every step `won` is false, the world equals the initial one, and the session is
`Active`; no observation is in state `Won`. -/
theorem never_won_state_fixed (data : Ptr) (cs : List CChar) (win : Bool) (w : World) :
    drive level_ops data cs win w .Active =
      List.replicate cs.length { won := false, world := w, state := .Active } ∧
    (drive level_ops data cs win w .Active).length = cs.length ∧
    (drive level_ops data cs win w .Active).all
      (fun o => decide (o.won = false ∧ o.world = w ∧ o.state = .Active)) = true ∧
    (drive level_ops data cs win w .Active).any
      (fun o => decide (o.state = .Won)) = false := by
  rw [drive_level_ops]
  refine ⟨rfl, by simp, ?_, ?_⟩
  · simp [List.all_eq_true]
  · simp [List.any_eq_false]

/-- C9: the outputs of `move` do not depend on its arguments: for all pointers,
worlds, input characters and previous slot contents the message and the `won`
flag are the same, the message being the 16-character string
`Zdi vsude okolo.`. -/
theorem move_constant (d1 d2 : Ptr) (c1 c2 : CChar) (win1 win2 : Bool) (w1 w2 : World) :
    (move d1 c1 win1 w1).ret = (move d2 c2 win2 w2).ret ∧
    (move d1 c1 win1 w1).win = (move d2 c2 win2 w2).win ∧
    (move d1 c1 win1 w1).ret = some "Zdi vsude okolo." ∧
    "Zdi vsude okolo.".length = 16 ∧
    level_ops.move = move :=
  ⟨rfl, rfl, rfl, by decide, rfl⟩

/-- C10: the cell probe `what` is total and constant: for every level state,
all integers `x` and `y` and every previous content of the result slot it sets
the result to 0, returns `NULL`, and leaves the world (and with it the state
block) unchanged. -/
theorem what_constant (data : Ptr) (x y res : Int) (w : World) :
    level_ops.what data x y res w = { ret := none, res := 0, world := w } ∧
    (level_ops.what data x y res w).res = 0 ∧
    (level_ops.what data x y res w).ret = none ∧
    (level_ops.what data x y res w).world = w ∧
    (level_ops.what data x y res w).world.block data = w.block data :=
  ⟨rfl, rfl, rfl, rfl, rfl⟩

/-! ## Creation and destruction of the level state -/

/-- An address that is not live has no block. -/
theorem block_none_of_not_live (w : World) (p : Ptr) (h : p ∉ w.live) :
    w.block p = none := by
  have hfind : w.heap.find? (fun b => b.1 == p) = none := by
    rw [List.find?_eq_none]
    intro b hb hbp
    apply h
    have hp : b.1 = p := by simpa using hbp
    rw [← hp]
    exact List.mem_map_of_mem Prod.fst hb
  unfold World.block
  rw [hfind]
  rfl

/-- Releasing an address that is not live is the fault `bad_free`. -/
theorem free_data_not_live (w : World) (p : Ptr) (h : p ∉ w.live) :
    free_data p w = .error .bad_free := by
  have hb : w.block p = none := block_none_of_not_live w p h
  simp [free_data, sfree, hb, bind, Except.bind]

/-- The allocation frontier is not a live address of a well-formed world. -/
theorem brk_not_live (w : World) (h : w.wf) : w.brk ∉ w.live := by
  intro hmem
  exact Nat.lt_irrefl _ (h.2.1 _ hmem).2

/-- Destroying a state in the very world its creation returned: `free_data`
succeeds, the heap is again the heap from before `get_data`, and the log is the
log from before plus the one info record. -/
theorem free_data_undoes_get_data (w w1 : World) (p : Ptr)
    (h : get_data w = .ok (p, w1)) :
    ∃ w2, free_data p w1 = .ok w2 ∧ w2.heap = w.heap ∧
      w2.log = w.log ++ [{ level := .info, text := "ok, freeing" }] := by
  unfold get_data salloc at h
  split at h
  · simp only [Except.ok.injEq, Prod.mk.injEq] at h
    obtain ⟨hp, hw1⟩ := h
    subst hw1
    subst hp
    refine ⟨{ heap := w.heap, brk := w.brk + max 1 1, avail := w.avail - 1 + 1,
              log := w.log ++ [{ level := .info, text := "ok, freeing" }] }, ?_, rfl, rfl⟩
    simp [free_data, sfree, World.block, release, log_info, bind, Except.bind, pure,
      Except.pure]
  · simp at h

/-- The process-start world is well formed. -/
theorem wf_boot (avail : Nat) : (World.boot avail).wf := by
  refine ⟨Nat.one_pos, ?_, ?_⟩
  · intro p hp
    simp [World.boot, World.live] at hp
  · simp [World.boot, World.live]

/-- `get_data` keeps the heap discipline. -/
theorem wf_get_data (w w1 : World) (p : Ptr) (hwf : w.wf)
    (h : get_data w = .ok (p, w1)) : w1.wf := by
  unfold get_data salloc at h
  split at h
  · simp only [Except.ok.injEq, Prod.mk.injEq] at h
    obtain ⟨_, hw1⟩ := h
    subst hw1
    obtain ⟨h0, hlt, hnd⟩ := hwf
    have hmax : max 1 1 = 1 := rfl
    refine ⟨?_, ?_, ?_⟩
    · show 0 < w.brk + max 1 1
      omega
    · intro q hq
      simp only [World.live, List.map_cons, List.mem_cons] at hq
      show 0 < q ∧ q < w.brk + max 1 1
      rcases hq with hq | hq
      · subst hq
        omega
      · have := hlt q hq
        omega
    · simp only [World.live, List.map_cons, List.nodup_cons]
      exact ⟨brk_not_live w ⟨h0, hlt, hnd⟩, hnd⟩
  · simp at h

/-- What `release` leaves is a sublist of what it was given. -/
theorem release_sublist (p : Ptr) (l : List (Nat × List Byte)) :
    (release p l).Sublist l := by
  induction l with
  | nil => exact List.Sublist.refl _
  | cons b bs ih =>
    unfold release
    split
    · exact List.sublist_cons_self b bs
    · exact ih.cons₂ b

/-- `free_data` keeps the heap discipline. -/
theorem wf_free_data (w w2 : World) (p : Ptr) (hwf : w.wf)
    (h : free_data p w = .ok w2) : w2.wf := by
  unfold free_data sfree at h
  cases hb : w.block p with
  | none => simp [hb, bind, Except.bind] at h
  | some bytes =>
    simp only [hb, bind, Except.bind, pure, Except.pure, log_info, Except.ok.injEq] at h
    subst h
    obtain ⟨h0, hlt, hnd⟩ := hwf
    have hsub : (List.map Prod.fst (release p w.heap)).Sublist w.live :=
      (release_sublist p w.heap).map Prod.fst
    exact ⟨h0, fun q hq => hlt q (hsub.subset hq), hsub.nodup hnd⟩

/-- The state `get_data` returns is live in the world it returns, and was not
live before. -/
theorem get_data_live (w w1 : World) (p : Ptr) (hwf : w.wf)
    (h : get_data w = .ok (p, w1)) : p ∈ w1.live ∧ p ∉ w.live := by
  unfold get_data salloc at h
  split at h
  · simp only [Except.ok.injEq, Prod.mk.injEq] at h
    obtain ⟨hp, hw1⟩ := h
    subst hw1
    subst hp
    exact ⟨by simp [World.live], brk_not_live w hwf⟩
  · simp at h

/-- The addresses `release` leaves are the given ones with `p` erased once. -/
theorem live_release (p : Ptr) (l : List (Nat × List Byte)) :
    (release p l).map Prod.fst = (l.map Prod.fst).erase p := by
  induction l with
  | nil => rfl
  | cons b bs ih =>
    unfold release
    by_cases hb : b.1 = p
    · simp [hb]
    · rw [if_neg hb, List.map_cons, List.map_cons, List.erase_cons_tail, ih]
      simpa using hb

/-- The block found at any other address is not touched by `release`. -/
theorem find_release_ne (p q : Ptr) (hq : q ≠ p) (l : List (Nat × List Byte)) :
    (release p l).find? (fun b => b.1 == q) = l.find? (fun b => b.1 == q) := by
  induction l with
  | nil => rfl
  | cons b bs ih =>
    unfold release
    by_cases hb : b.1 = p
    · have hbq : (b.1 == q) = false := by
        rw [hb]
        simpa using fun h => hq h.symm
      rw [if_pos hb, List.find?_cons, hbq]
    · rw [if_neg hb, List.find?_cons, List.find?_cons, ih]

/-- A live address has a block. -/
theorem block_some_of_live (w : World) (p : Ptr) (h : p ∈ w.live) :
    ∃ bytes, w.block p = some bytes := by
  unfold World.live at h
  rw [List.mem_map] at h
  obtain ⟨b, hb, hbp⟩ := h
  have hsome : (w.heap.find? (fun b => b.1 == p)).isSome = true := by
    rw [List.find?_isSome]
    exact ⟨b, hb, by simpa using hbp⟩
  obtain ⟨c, hc⟩ := Option.isSome_iff_exists.1 hsome
  exact ⟨c.2, by unfold World.block; rw [hc]; rfl⟩

/-- C6: for every level state `p` produced by `get_data` (in a well-formed
world `w0`, returning world `w1`): the state is live in `w1`, which is well
formed, and was not live before; and in every well-formed world `w` in which
`p` is still live (right after its creation or after any creations, moves,
queries and destructions of other sessions) `free_data p` succeeds (world
`w2`).  It releases the state exactly once: `p` is live before and not live
after, the live addresses are the earlier ones with `p` erased, one block fewer
is live, every other block keeps its content, the heap discipline is kept, and
the state cannot be released a second time.  It emits exactly one record, the
info record `ok, freeing`, after the records already in the log.  Destroying in
`w1` itself gives back the heap from before the creation. -/
theorem free_data_created_state (w0 w1 w : World) (p : Ptr)
    (hwf0 : w0.wf) (hget : get_data w0 = .ok (p, w1))
    (hwf : w.wf) (hlive : p ∈ w.live) :
    (w1.wf ∧ p ∈ w1.live ∧ p ∉ w0.live) ∧
    (∃ w2, free_data p w = .ok w2 ∧
      w2.log = w.log ++ [{ level := .info, text := "ok, freeing" }] ∧
      w2.log.length = w.log.length + 1 ∧
      p ∉ w2.live ∧
      w2.live = w.live.erase p ∧
      w2.live.length + 1 = w.live.length ∧
      (∀ q : Ptr, q ≠ p → w2.block q = w.block q) ∧
      w2.brk = w.brk ∧
      w2.wf ∧
      free_data p w2 = .error .bad_free) ∧
    (∃ w3, free_data p w1 = .ok w3 ∧ w3.heap = w0.heap ∧
      w3.log = w0.log ++ [{ level := .info, text := "ok, freeing" }]) := by
  obtain ⟨hl1, hl0⟩ := get_data_live w0 w1 p hwf0 hget
  refine ⟨⟨wf_get_data w0 w1 p hwf0 hget, hl1, hl0⟩, ?_, free_data_undoes_get_data w0 w1 p hget⟩
  obtain ⟨bytes, hb⟩ := block_some_of_live w p hlive
  have hfree : free_data p w = .ok
      { heap := release p w.heap, brk := w.brk, avail := w.avail + bytes.length,
        log := w.log ++ [{ level := .info, text := "ok, freeing" }] } := by
    simp [free_data, sfree, hb, log_info, bind, Except.bind, pure, Except.pure]
  have hlive2 : World.live
      { heap := release p w.heap, brk := w.brk, avail := w.avail + bytes.length,
        log := w.log ++ [{ level := .info, text := "ok, freeing" }] } = w.live.erase p :=
    live_release p w.heap
  have hnot : p ∉ w.live.erase p := fun hmem => (List.Nodup.mem_erase_iff hwf.2.2).1 hmem |>.1 rfl
  refine ⟨_, hfree, rfl, by simp, ?_, hlive2, ?_, ?_, rfl, wf_free_data w _ p hwf hfree, ?_⟩
  · rw [hlive2]
    exact hnot
  · rw [hlive2, List.length_erase_of_mem hlive]
    have hpos : 0 < w.live.length := List.length_pos_of_mem hlive
    omega
  · intro q hq
    unfold World.block
    rw [find_release_ne p q hq w.heap]
  · apply free_data_not_live
    rw [hlive2]
    exact hnot

/-- Instance of `free_data_created_state`: the state at address 1 is created
in the process-start world; a second session then creates the state at address
2 and a record is logged; the older state 1 is destroyed while state 2 is
live.  State 2 keeps its block and the earlier record stays first in the log. -/
theorem free_data_created_state_witness :
    (World.boot 8).wf ∧
    get_data (World.boot 8) =
      .ok (1, { heap := [(1, [none])], brk := 2, avail := 7, log := [] }) ∧
    World.wf { heap := [(2, [none]), (1, [none])], brk := 3, avail := 6,
               log := [{ level := .other, text := "hello" }] } ∧
    1 ∈ World.live { heap := [(2, [none]), (1, [none])], brk := 3, avail := 6,
                     log := [{ level := .other, text := "hello" }] } ∧
    ∃ w2, free_data 1 { heap := [(2, [none]), (1, [none])], brk := 3, avail := 6,
                        log := [{ level := .other, text := "hello" }] } = .ok w2 ∧
      w2.log = [{ level := .other, text := "hello" }, { level := .info, text := "ok, freeing" }] ∧
      1 ∉ w2.live ∧
      w2.live = [2] ∧
      w2.block 2 = some [none] ∧
      free_data 1 w2 = .error .bad_free :=
  ⟨by decide, rfl, by decide, by decide,
    Exists.imp
      (fun _ h => ⟨h.1, h.2.1, h.2.2.2.1, h.2.2.2.2.1,
        (h.2.2.2.2.2.2.1 2 (by decide)).trans (by decide), h.2.2.2.2.2.2.2.2.2⟩)
      (free_data_created_state (World.boot 8)
        { heap := [(1, [none])], brk := 2, avail := 7, log := [] }
        { heap := [(2, [none]), (1, [none])], brk := 3, avail := 6,
          log := [{ level := .other, text := "hello" }] }
        1 (by decide) rfl (by decide) (by decide)).2.1⟩

/-! ## Admission control -/

/-- Counting after one position of a list is overwritten. -/
theorem countP_set_add {α : Type} (p : α → Bool) :
    ∀ (l : List α) (i : Nat) (a b : α), l[i]? = some a →
      (l.set i b).countP p + (if p a = true then 1 else 0) =
        l.countP p + (if p b = true then 1 else 0) := by
  intro l
  induction l with
  | nil => intro i a b h; simp at h
  | cons x xs ih =>
    intro i a b h
    cases i with
    | zero =>
      simp only [List.getElem?_cons_zero, Option.some.injEq] at h
      subst h
      simp only [List.set_cons_zero, List.countP_cons]
      omega
    | succ j =>
      simp only [List.getElem?_cons_succ] at h
      have := ih j a b h
      simp only [List.set_cons_succ, List.countP_cons]
      omega

/-- Overwriting a position with a consistent session keeps all sessions
consistent. -/
theorem good_set (l : List Session) (i : Nat) (b : Session)
    (hl : ∀ s ∈ l, s.good) (hb : b.good) : ∀ s ∈ l.set i b, s.good := by
  intro s hs
  rcases List.mem_or_eq_of_mem_set hs with h | h
  · exact hl s h
  · rw [h]; exact hb

/-- Overwriting the state of a session leaves the number of owned level states
as it is. -/
theorem owned_set_state (l : List Session) (i : Nat) (s : Session) (st : SessionState)
    (h : l[i]? = some s) :
    (l.set i { s with state := st }).countP (fun s => s.bound) =
      l.countP (fun s => s.bound) := by
  have := countP_set_add (fun s => s.bound) l i s { s with state := st } h
  simp only at this
  omega

/-- Every host step keeps the bookkeeping invariant. -/
theorem inv_step (N D : Nat) (h : Host) (e : HostEvent) (hi : h.inv N) :
    (h.step N D e).inv N := by
  obtain ⟨hown, hgood, hcap⟩ := hi
  cases e with
  | connect =>
    refine ⟨?_, ?_, hcap⟩
    · simpa [Host.step, Host.owned, List.countP_append] using hown
    · intro s hs
      simp only [Host.step, List.mem_append, List.mem_singleton] at hs
      rcases hs with hs | hs
      · exact hgood s hs
      · subst hs
        exact ⟨by simp, fun _ => rfl⟩
  | create i allocated =>
    simp only [Host.step]
    cases hget : h.sessions[i]? with
    | none => exact ⟨hown, hgood, hcap⟩
    | some s =>
      simp only
      have hsg : s.good := hgood s (List.getElem?_mem hget)
      split_ifs with hst hadm halloc
      · have hb : s.bound = false := hsg.2 hst
        have hc := countP_set_add (fun s => s.bound) h.sessions i s
          { state := .Active, bound := true } hget
        simp only [hb] at hc
        refine ⟨?_, good_set _ _ _ hgood ⟨fun _ => rfl, by simp⟩, ?_⟩
        · simp only [Host.owned] at hown ⊢
          simp at hc
          omega
        · intro n hn
          have := hcap n hn
          simp only [admits, hn, decide_eq_true_eq] at hadm
          show h.counter + 1 ≤ n
          omega
      · exact ⟨hown, hgood, hcap⟩
      · have hb : s.bound = false := hsg.2 hst
        have hc := countP_set_add (fun s => s.bound) h.sessions i s
          { state := .LimitExceeded, bound := false } hget
        simp only [hb] at hc
        refine ⟨?_, good_set _ _ _ hgood ⟨by simp, by simp⟩, hcap⟩
        simp only [Host.owned] at hown ⊢
        simp at hc
        omega
      · exact ⟨hown, hgood, hcap⟩
  | moved i won =>
    simp only [Host.step]
    cases hget : h.sessions[i]? with
    | none => exact ⟨hown, hgood, hcap⟩
    | some s =>
      simp only
      have hsg : s.good := hgood s (List.getElem?_mem hget)
      refine ⟨?_, good_set _ _ _ hgood ?_, hcap⟩
      · simp only [Host.owned] at hown ⊢
        rw [owned_set_state _ _ _ _ hget]
        exact hown
      · constructor
        · intro hst
          apply hsg.1
          revert hst
          cases s.state <;> cases won <;> simp [SessionState.after_move]
        · intro hst
          apply hsg.2
          revert hst
          cases s.state <;> cases won <;> simp [SessionState.after_move]
  | clock i elapsed =>
    simp only [Host.step]
    cases hget : h.sessions[i]? with
    | none => exact ⟨hown, hgood, hcap⟩
    | some s =>
      simp only
      split_ifs with hst
      · refine ⟨?_, good_set _ _ _ hgood ⟨by simp, by simp⟩, hcap⟩
        simp only [Host.owned] at hown ⊢
        rw [owned_set_state _ _ _ _ hget]
        exact hown
      · exact ⟨hown, hgood, hcap⟩
  | disconnect i =>
    simp only [Host.step]
    cases hget : h.sessions[i]? with
    | none => exact ⟨hown, hgood, hcap⟩
    | some s =>
      simp only
      split_ifs with hst
      · refine ⟨?_, good_set _ _ _ hgood ⟨by simp, by simp⟩, hcap⟩
        simp only [Host.owned] at hown ⊢
        rw [owned_set_state _ _ _ _ hget]
        exact hown
      · exact ⟨hown, hgood, hcap⟩
  | destroy i =>
    simp only [Host.step]
    cases hget : h.sessions[i]? with
    | none => exact ⟨hown, hgood, hcap⟩
    | some s =>
      simp only
      split_ifs with hst
      · obtain ⟨hfin, hb⟩ := hst
        have hc := countP_set_add (fun s => s.bound) h.sessions i s
          { s with bound := false } hget
        simp only [hb] at hc
        refine ⟨?_, good_set _ _ _ hgood ?_, ?_⟩
        · simp only [Host.owned] at hown ⊢
          simp at hc
          omega
        · constructor
          · intro hact
            have hact2 : s.state = .Active := hact
            rw [hact2] at hfin
            simp [SessionState.finished] at hfin
          · intro _
            rfl
        · intro n hn
          have := hcap n hn
          show h.counter - 1 ≤ n
          omega
      · exact ⟨hown, hgood, hcap⟩

/-- Every run from a consistent host ends in a consistent host. -/
theorem inv_run (N D : Nat) (es : List HostEvent) :
    ∀ h : Host, h.inv N → (h.run N D es).inv N := by
  induction es with
  | nil => intro h hi; exact hi
  | cons e es ih =>
    intro h hi
    exact ih (h.step N D e) (inv_step N D h e hi)

/-- The host at process start is consistent. -/
theorem inv_boot (N : Nat) : Host.boot.inv N := by
  refine ⟨rfl, ?_, ?_⟩
  · intro s hs
    simp [Host.boot] at hs
  · intro n _
    exact Nat.zero_le n

/-- In a consistent host the `Active` sessions are at most the counter. -/
theorem active_le_counter (N : Nat) (h : Host) (hi : h.inv N) : h.active ≤ h.counter := by
  obtain ⟨hown, hgood, _⟩ := hi
  rw [← hown]
  unfold Host.active Host.owned
  apply List.countP_mono_left
  intro s hs hact
  exact (hgood s hs).1 (by simpa using hact)

/-- C7: for a level whose `max_connections` is the bound `N` (read as a limit,
so a non-zero value; 0 stands for "unlimited" and is no bound), whatever the
interleaving of the synchronized host steps of any number of clients, at no
point are more than `N` sessions `Active`; and for the limits of the reference
level (`max_conn = 2`), in every reachable host state with two `Active`
sessions a creation attempt of a further (`Uncreated`) session is refused: the
session becomes `LimitExceeded`, owns no level state, and two sessions stay
`Active`. -/
theorem host_respects_limit (N D : Nat) (hN : limit_of N = some N) (es : List HostEvent) :
    (Host.run N D Host.boot es).active ≤ N ∧
    ∀ (i : Nat) (allocated : Bool) (s : Session),
      (Host.run level_ops.max_conn level_ops.max_time Host.boot es).active = 2 →
      (Host.run level_ops.max_conn level_ops.max_time Host.boot es).sessions[i]? = some s →
      s.state = .Uncreated →
      ((Host.run level_ops.max_conn level_ops.max_time Host.boot es).step
          level_ops.max_conn level_ops.max_time (.create i allocated)).sessions[i]? =
        some { state := .LimitExceeded, bound := false } ∧
      ((Host.run level_ops.max_conn level_ops.max_time Host.boot es).step
          level_ops.max_conn level_ops.max_time (.create i allocated)).active = 2 := by
  constructor
  · have hi := inv_run N D es Host.boot (inv_boot N)
    have h1 := active_le_counter N _ hi
    have h2 := hi.2.2 N hN
    omega
  · intro i allocated s hact hget hst
    have hi := inv_run level_ops.max_conn level_ops.max_time es Host.boot
      (inv_boot level_ops.max_conn)
    have h1 := active_le_counter _ _ hi
    have h2 : (Host.run level_ops.max_conn level_ops.max_time Host.boot es).counter ≤ 2 :=
      hi.2.2 2 (by decide)
    have hc : (Host.run level_ops.max_conn level_ops.max_time Host.boot es).counter = 2 := by
      omega
    have hadm : admits level_ops.max_conn
        (Host.run level_ops.max_conn level_ops.max_time Host.boot es).counter = false := by
      rw [hc]
      decide
    have hlen : i < (Host.run level_ops.max_conn level_ops.max_time Host.boot es).sessions.length := by
      rcases List.getElem?_eq_some.1 hget with ⟨hlt, _⟩
      exact hlt
    have hcount := countP_set_add (fun s => decide (s.state = .Active))
      (Host.run level_ops.max_conn level_ops.max_time Host.boot es).sessions i s
      { state := .LimitExceeded, bound := false } hget
    simp only [Host.step, hget, hst, hadm, if_true, Bool.false_eq_true, if_false]
    constructor
    · simp [List.getElem?_set, hlen]
    · simp only [Host.active] at hact ⊢
      simp [hst] at hcount
      omega

/-- Instance of `host_respects_limit` for the limits of the reference level:
three clients connect, two create their sessions, the third is refused. -/
theorem host_respects_limit_witness :
    limit_of 2 = some 2 ∧
    (Host.run 2 10 Host.boot
      [.connect, .connect, .connect, .create 0 true, .create 1 true]).active ≤ 2 ∧
    ((Host.run level_ops.max_conn level_ops.max_time Host.boot
      [.connect, .connect, .connect, .create 0 true, .create 1 true]).step
        level_ops.max_conn level_ops.max_time (.create 2 true)).sessions[2]? =
      some { state := .LimitExceeded, bound := false } :=
  ⟨by decide,
    (host_respects_limit 2 10 (by decide)
      [.connect, .connect, .connect, .create 0 true, .create 1 true]).1,
    ((host_respects_limit 2 10 (by decide)
      [.connect, .connect, .connect, .create 0 true, .create 1 true]).2 2 true
        { state := .Uncreated, bound := false } (by decide) (by decide) rfl).1⟩

end Level01
